import Mathlib

/-!
Verification of the attention modules of the InsideLLM-Transformers
repository: `MultiHeadAttention` (MultiHeadAttention.ipynb),
`GroupedQueryAttention` and `CausalSelfAttention` (both shipped in the
repository's notebook collection).

Modelling conventions.

* Tensors are total functions out of `Fin`-indexed coordinates into `ℚ`;
  a tensor of shape `(B, T, D)` is `Fin B → Fin T → Fin D → ℚ`.
  Exact rationals stand for the engine's floating-point numbers.
* The tensor engine's exponential (the heart of `F.softmax`) is an explicit
  parameter `E : ℚ → ℚ`.  Theorems assume of `E` only properties that
  IEEE `exp` actually has: nonnegativity, `0 < E 0`, and underflow to an
  exact `0` for arguments at or below `-10^8` (float `exp` underflows to
  `+0.0` below roughly `-745`, so `-10^8` is a sound, very conservative
  threshold).  `softmaxRow` subtracts the row maximum before applying `E`,
  exactly as `torch.softmax` does.
* `nn.Dropout` is determinized: a forward call receives the sampled
  per-entry multiplier tensor `c`.  Torch multiplies each kept entry by
  `1/(1-p)` and zeroes dropped entries; a draw is legal for probability `p`
  when every multiplier is `1/(1-p)`, or `0` provided `0 < p`
  (with `p = 0` torch's Bernoulli keep-probability is `1`, so every entry
  is surely kept).  This is the predicate `DropoutDraw`.
* `math.sqrt`/`np.sqrt` values are irrational, so each module stores the
  engine-computed scaling constant in a field `scale` (the source fixes it
  to `√embedding_dim` resp. `√d_k` resp. `√d_qk`); no claim below depends
  on its value.
* Python `assert`s and the `%`-by-zero failure mode are modelled by
  constructors returning `Except PyError`.
-/

namespace InsideLLM

/-- A dense linear layer `nn.Linear(inF, outF)`: weight matrix and bias. -/
structure Linear (inF outF : ℕ) where
  weight : Fin outF → Fin inF → ℚ
  bias : Fin outF → ℚ

/-- Application of a linear layer to one embedding vector:
`y o = Σ i, W o i * x i + b o`, torch's `x @ W.T + b`. -/
def Linear.apply {inF outF : ℕ} (L : Linear inF outF) (x : Fin inF → ℚ) :
    Fin outF → ℚ :=
  fun o => (∑ i, L.weight o i * x i) + L.bias o

/-- Maximum entry of a row, `0` for an empty row (torch's softmax
subtracts this value before exponentiating). -/
def rowMax {n : ℕ} (r : Fin n → ℚ) : ℚ :=
  match n, r with
  | 0, _ => 0
  | _ + 1, r => List.foldr max (r 0) (List.ofFn fun i => r i.succ)

/-- Numerically-stabilized softmax of one row, as `torch.softmax` computes
it: exponentials of max-shifted entries, normalized by their sum.
`E` is the engine's exponential function. -/
def softmaxRow {n : ℕ} (E : ℚ → ℚ) (r : Fin n → ℚ) : Fin n → ℚ :=
  fun j => E (r j - rowMax r) / ∑ k, E (r k - rowMax r)

/-- The fill constant `-1e9` used by all three modules in
`masked_fill(mask == 0, -1e9)`. -/
def maskConst : ℚ := -(10 ^ 9)

/-- A legal sampled multiplier tensor for `nn.Dropout(p)` in training mode:
every entry is `1/(1-p)` (kept) or, when `0 < p`, possibly `0` (dropped). -/
def DropoutDraw (p : ℚ) {ι : Type} (c : ι → ℚ) : Prop :=
  ∀ i : ι, c i = 1 / (1 - p) ∨ (c i = 0 ∧ 0 < p)

/-- Errors a module constructor can raise: a failed `assert`, or Python's
`ZeroDivisionError` from `%` with a zero right operand. -/
inductive PyError
  | assertionError
  | zeroDivisionError
deriving DecidableEq, Repr

/-- Python `d_model % num_heads`: raises `ZeroDivisionError` when the
divisor is zero. -/
def pymod (a b : ℕ) : Except PyError ℕ :=
  if b = 0 then Except.error PyError.zeroDivisionError
  else Except.ok (a % b)

/-- MultiHeadAttention.__init__ (MultiHeadAttention.ipynb): runs
`assert d_model % num_heads == 0` and on success stores
`(d_model, num_heads, d_k = d_model // num_heads)`. -/
def MultiHeadAttention.init (d_model num_heads : ℕ) :
    Except PyError (ℕ × ℕ × ℕ) := do
  let r ← pymod d_model num_heads
  if r = 0 then
    Except.ok (d_model, num_heads, d_model / num_heads)
  else
    Except.error PyError.assertionError

/-- GroupedQueryAttention.__init__: runs, in source order,
`assert d_model % num_query_heads == 0`,
`assert d_model % num_kv_heads == 0`,
`assert num_query_heads % num_kv_heads == 0`, then stores
`(kv_groups, d_qk, d_v)`. -/
def GroupedQueryAttention.init (d_model num_query_heads num_kv_heads : ℕ) :
    Except PyError (ℕ × ℕ × ℕ) := do
  let r1 ← pymod d_model num_query_heads
  if r1 = 0 then
    let r2 ← pymod d_model num_kv_heads
    if r2 = 0 then
      let r3 ← pymod num_query_heads num_kv_heads
      if r3 = 0 then
        Except.ok (num_query_heads / num_kv_heads,
                   d_model / num_query_heads, d_model / num_kv_heads)
      else
        Except.error PyError.assertionError
    else
      Except.error PyError.assertionError
  else
    Except.error PyError.assertionError

/-- Did a constructor run succeed (no Python exception)? -/
def isOkB {α : Type} : Except PyError α → Bool
  | Except.ok _ => true
  | Except.error _ => false

/-- Flat index of coordinate `(h, j)` in a contiguous tensor whose last two
axes have extents `H` and `dk`; this is what `view` into `(…, H, dk)`
and back relies on. -/
def finMerge {H dk : ℕ} (h : Fin H) (j : Fin dk) : Fin (H * dk) :=
  ⟨h.1 * dk + j.1, by
    calc h.1 * dk + j.1 < h.1 * dk + dk := by omega
    _ = (h.1 + 1) * dk := by ring
    _ ≤ H * dk := Nat.mul_le_mul_right dk h.2⟩

/-- As `finMerge`, for a feature dimension written `dk * H` (the
`(d_model // num_query_heads) * num_kv_heads` projection width of
grouped-query attention). -/
def finMergeSwap {H dk : ℕ} (h : Fin H) (j : Fin dk) : Fin (dk * H) :=
  Fin.cast (Nat.mul_comm H dk) (finMerge h j)

/-- Head index recovered from a flat feature index (the `d / d_k` part of
merging `(…, H, dk)` back into `(…, H*dk)`). -/
def headIndex {H dk : ℕ} (d : Fin (H * dk)) : Fin H :=
  ⟨d.1 / dk, by
    have hd := d.2
    have hdk : 0 < dk := by
      rcases Nat.eq_zero_or_pos dk with h | h
      · subst h; omega
      · exact h
    exact (Nat.div_lt_iff_lt_mul hdk).mpr hd⟩

/-- Within-head index recovered from a flat feature index. -/
def subIndex {H dk : ℕ} (d : Fin (H * dk)) : Fin dk :=
  ⟨d.1 % dk, by
    have hd := d.2
    have hdk : 0 < dk := by
      rcases Nat.eq_zero_or_pos dk with h | h
      · subst h; omega
      · exact h
    exact Nat.mod_lt _ hdk⟩

/-- MultiHeadAttention.split_heads:
`x.view(batch_size, -1, num_heads, d_k)` followed by
`permute(0, 2, 1, 3)`, taking `(B, T, H*dk)` to `(B, H, T, dk)`. -/
def split_heads (H dk : ℕ) {B T : ℕ} (x : Fin B → Fin T → Fin (H * dk) → ℚ) :
    Fin B → Fin H → Fin T → Fin dk → ℚ :=
  fun b h t j => x b t (finMerge h j)

/-- The recombination step of MultiHeadAttention.forward:
`context.permute(0, 2, 1, 3).contiguous().view(batch_size, -1, d_model)`,
taking `(B, H, T, dk)` back to `(B, T, H*dk)`. -/
def combine_heads (H dk : ℕ) {B T : ℕ}
    (y : Fin B → Fin H → Fin T → Fin dk → ℚ) :
    Fin B → Fin T → Fin (H * dk) → ℚ :=
  fun b t d => y b (headIndex d) t (subIndex d)

/-- torch.repeat_interleave along a list of slices: each element is
repeated `G` times consecutively (contiguous duplication, not tiling). -/
def repeatInterleaveList {α : Type} (G : ℕ) : List α → List α
  | [] => []
  | a :: t => List.replicate G a ++ repeatInterleaveList G t

/-- Expansion of `Hkv` key/value heads to `Hkv * G` heads by
`torch.repeat_interleave(·, G, dim=1)` (indexed reading of
`repeatInterleaveList` along the head axis). -/
def expandHeads {α : Type} (G : ℕ) {Hkv : ℕ} (f : Fin Hkv → α) :
    Fin (Hkv * G) → α :=
  fun i =>
    (repeatInterleaveList G (List.ofFn f)).get (Fin.cast (by
      have hlen : ∀ l : List α, (repeatInterleaveList G l).length = G * l.length := by
        intro l
        induction l with
        | nil => rfl
        | cons a t ih =>
          simp only [repeatInterleaveList, List.length_append,
            List.length_replicate, ih, List.length_cons, Nat.mul_succ]
          omega
      rw [hlen, List.length_ofFn, Nat.mul_comm]) i)

/-- The original kv-head an expanded head index belongs to: head `i` of the
expanded tensor comes from kv-head `⌊i / G⌋` (this is the spec's wording of
the grouping; claim C2 compares it with `expandHeads`). -/
def groupIndex {Hkv G : ℕ} (i : Fin (Hkv * G)) : Fin Hkv :=
  ⟨i.1 / G, by
    have hi := i.2
    have hG : 0 < G := by
      rcases Nat.eq_zero_or_pos G with h | h
      · subst h; omega
      · exact h
    exact (Nat.div_lt_iff_lt_mul hG).mpr hi⟩

/-- MultiHeadAttention (MultiHeadAttention.ipynb) with `num_heads` heads of
`d_k` features each, so `d_model = num_heads * d_k` (the constructor's
`assert d_model % num_heads == 0` makes that factorization total). -/
structure MultiHeadAttention (num_heads d_k : ℕ) where
  query_proj : Linear (num_heads * d_k) (num_heads * d_k)
  key_proj : Linear (num_heads * d_k) (num_heads * d_k)
  value_proj : Linear (num_heads * d_k) (num_heads * d_k)
  output_proj : Linear (num_heads * d_k) (num_heads * d_k)
  dropout_p : ℚ
  scale : ℚ

/-- Projected, head-split Query: `self.split_heads(self.query_proj(query), batch_size)`. -/
def MultiHeadAttention.Qh {H dk B Tq : ℕ} (M : MultiHeadAttention H dk)
    (query : Fin B → Fin Tq → Fin (H * dk) → ℚ) :
    Fin B → Fin H → Fin Tq → Fin dk → ℚ :=
  split_heads H dk (fun b t => M.query_proj.apply (query b t))

/-- Projected, head-split Key. -/
def MultiHeadAttention.Kh {H dk B Tk : ℕ} (M : MultiHeadAttention H dk)
    (key : Fin B → Fin Tk → Fin (H * dk) → ℚ) :
    Fin B → Fin H → Fin Tk → Fin dk → ℚ :=
  split_heads H dk (fun b t => M.key_proj.apply (key b t))

/-- Projected, head-split Value. -/
def MultiHeadAttention.Vh {H dk B Tk : ℕ} (M : MultiHeadAttention H dk)
    (value : Fin B → Fin Tk → Fin (H * dk) → ℚ) :
    Fin B → Fin H → Fin Tk → Fin dk → ℚ :=
  split_heads H dk (fun b t => M.value_proj.apply (value b t))

/-- Raw scores `torch.matmul(Q, K.transpose(-2, -1)) / np.sqrt(d_k)`. -/
def MultiHeadAttention.scores {H dk B Tq Tk : ℕ} (M : MultiHeadAttention H dk)
    (query : Fin B → Fin Tq → Fin (H * dk) → ℚ)
    (key : Fin B → Fin Tk → Fin (H * dk) → ℚ) :
    Fin B → Fin H → Fin Tq → Fin Tk → ℚ :=
  fun b h i j => (∑ d, M.Qh query b h i d * M.Kh key b h j d) / M.scale

/-- Scores after the optional `scores.masked_fill(mask == 0, -1e9)`. -/
def MultiHeadAttention.filled {H dk B Tq Tk : ℕ} (M : MultiHeadAttention H dk)
    (query : Fin B → Fin Tq → Fin (H * dk) → ℚ)
    (key : Fin B → Fin Tk → Fin (H * dk) → ℚ)
    (mask : Option (Fin B → Fin H → Fin Tq → Fin Tk → Bool)) :
    Fin B → Fin H → Fin Tq → Fin Tk → ℚ :=
  fun b h i j =>
    match mask with
    | none => M.scores query key b h i j
    | some m => if m b h i j then M.scores query key b h i j else maskConst

/-- Attention weights returned by forward: softmax of the filled scores,
multiplied entrywise by the sampled dropout tensor `c`. -/
def MultiHeadAttention.attn {H dk B Tq Tk : ℕ} (M : MultiHeadAttention H dk)
    (E : ℚ → ℚ)
    (query : Fin B → Fin Tq → Fin (H * dk) → ℚ)
    (key : Fin B → Fin Tk → Fin (H * dk) → ℚ)
    (mask : Option (Fin B → Fin H → Fin Tq → Fin Tk → Bool))
    (c : Fin B × Fin H × Fin Tq × Fin Tk → ℚ) :
    Fin B → Fin H → Fin Tq → Fin Tk → ℚ :=
  fun b h i j => softmaxRow E (M.filled query key mask b h i) j * c (b, h, i, j)

/-- Per-head context `torch.matmul(attention_weights, V)`. -/
def MultiHeadAttention.context {H dk B Tq Tk : ℕ} (M : MultiHeadAttention H dk)
    (E : ℚ → ℚ)
    (query : Fin B → Fin Tq → Fin (H * dk) → ℚ)
    (key value : Fin B → Fin Tk → Fin (H * dk) → ℚ)
    (mask : Option (Fin B → Fin H → Fin Tq → Fin Tk → Bool))
    (c : Fin B × Fin H × Fin Tq × Fin Tk → ℚ) :
    Fin B → Fin H → Fin Tq → Fin dk → ℚ :=
  fun b h i d => ∑ j, M.attn E query key mask c b h i j * M.Vh value b h j d

/-- MultiHeadAttention.forward: returns
`(self.output_proj(recombined context), attention_weights)`. -/
def MultiHeadAttention.forward {H dk B Tq Tk : ℕ} (M : MultiHeadAttention H dk)
    (E : ℚ → ℚ)
    (query : Fin B → Fin Tq → Fin (H * dk) → ℚ)
    (key value : Fin B → Fin Tk → Fin (H * dk) → ℚ)
    (mask : Option (Fin B → Fin H → Fin Tq → Fin Tk → Bool))
    (c : Fin B × Fin H × Fin Tq × Fin Tk → ℚ) :
    (Fin B → Fin Tq → Fin (H * dk) → ℚ) ×
      (Fin B → Fin H → Fin Tq → Fin Tk → ℚ) :=
  (fun b t => M.output_proj.apply
      (combine_heads H dk (M.context E query key value mask c) b t),
   M.attn E query key mask c)

/-- GroupedQueryAttention with `num_kv_heads` kv heads, `kv_groups` query
heads per kv head and `d_qk` features per head, so
`num_query_heads = num_kv_heads * kv_groups` and
`d_model = num_kv_heads * kv_groups * d_qk` (the constructor's three
divisibility asserts make these factorizations total).  The Key/Value
projections target `(d_model // num_query_heads) * num_kv_heads
= d_qk * num_kv_heads` features, as in the source. -/
structure GroupedQueryAttention (num_kv_heads kv_groups d_qk : ℕ) where
  query_proj : Linear (num_kv_heads * kv_groups * d_qk) (num_kv_heads * kv_groups * d_qk)
  key_proj : Linear (num_kv_heads * kv_groups * d_qk) (d_qk * num_kv_heads)
  value_proj : Linear (num_kv_heads * kv_groups * d_qk) (d_qk * num_kv_heads)
  output_proj : Linear (num_kv_heads * kv_groups * d_qk) (num_kv_heads * kv_groups * d_qk)
  dropout_p : ℚ
  scale : ℚ

/-- Projected Query reshaped to
`(batch, num_query_heads, seq_len_q, d_qk)` by `view` + `transpose(1, 2)`. -/
def GroupedQueryAttention.qHeads {Hkv G dqk B Tq : ℕ}
    (M : GroupedQueryAttention Hkv G dqk)
    (query : Fin B → Fin Tq → Fin (Hkv * G * dqk) → ℚ) :
    Fin B → Fin (Hkv * G) → Fin Tq → Fin dqk → ℚ :=
  split_heads (Hkv * G) dqk (fun b t => M.query_proj.apply (query b t))

/-- Projected Key reshaped to `(batch, num_kv_heads, seq_len_k, d_qk)`. -/
def GroupedQueryAttention.kHeads {Hkv G dqk B Tk : ℕ}
    (M : GroupedQueryAttention Hkv G dqk)
    (key : Fin B → Fin Tk → Fin (Hkv * G * dqk) → ℚ) :
    Fin B → Fin Hkv → Fin Tk → Fin dqk → ℚ :=
  fun b h t j => M.key_proj.apply (key b t) (finMergeSwap h j)

/-- Projected Value reshaped to `(batch, num_kv_heads, seq_len_k, d_qk)`. -/
def GroupedQueryAttention.vHeads {Hkv G dqk B Tk : ℕ}
    (M : GroupedQueryAttention Hkv G dqk)
    (value : Fin B → Fin Tk → Fin (Hkv * G * dqk) → ℚ) :
    Fin B → Fin Hkv → Fin Tk → Fin dqk → ℚ :=
  fun b h t j => M.value_proj.apply (value b t) (finMergeSwap h j)

/-- Key after `torch.repeat_interleave(k, self.kv_groups, dim=1)`. -/
def GroupedQueryAttention.kExpanded {Hkv G dqk B Tk : ℕ}
    (M : GroupedQueryAttention Hkv G dqk)
    (key : Fin B → Fin Tk → Fin (Hkv * G * dqk) → ℚ) :
    Fin B → Fin (Hkv * G) → Fin Tk → Fin dqk → ℚ :=
  fun b => expandHeads G (M.kHeads key b)

/-- Value after `torch.repeat_interleave(v, self.kv_groups, dim=1)`. -/
def GroupedQueryAttention.vExpanded {Hkv G dqk B Tk : ℕ}
    (M : GroupedQueryAttention Hkv G dqk)
    (value : Fin B → Fin Tk → Fin (Hkv * G * dqk) → ℚ) :
    Fin B → Fin (Hkv * G) → Fin Tk → Fin dqk → ℚ :=
  fun b => expandHeads G (M.vHeads value b)

/-- Raw scores `torch.matmul(q, k.transpose(-2, -1)) / math.sqrt(d_qk)`. -/
def GroupedQueryAttention.scores {Hkv G dqk B Tq Tk : ℕ}
    (M : GroupedQueryAttention Hkv G dqk)
    (query : Fin B → Fin Tq → Fin (Hkv * G * dqk) → ℚ)
    (key : Fin B → Fin Tk → Fin (Hkv * G * dqk) → ℚ) :
    Fin B → Fin (Hkv * G) → Fin Tq → Fin Tk → ℚ :=
  fun b h i j => (∑ d, M.qHeads query b h i d * M.kExpanded key b h j d) / M.scale

/-- Scores after the optional `scores.masked_fill(mask == 0, -1e9)`. -/
def GroupedQueryAttention.filled {Hkv G dqk B Tq Tk : ℕ}
    (M : GroupedQueryAttention Hkv G dqk)
    (query : Fin B → Fin Tq → Fin (Hkv * G * dqk) → ℚ)
    (key : Fin B → Fin Tk → Fin (Hkv * G * dqk) → ℚ)
    (mask : Option (Fin B → Fin (Hkv * G) → Fin Tq → Fin Tk → Bool)) :
    Fin B → Fin (Hkv * G) → Fin Tq → Fin Tk → ℚ :=
  fun b h i j =>
    match mask with
    | none => M.scores query key b h i j
    | some m => if m b h i j then M.scores query key b h i j else maskConst

/-- Attention weights returned by forward: softmax of the filled scores
times the sampled dropout tensor. -/
def GroupedQueryAttention.attn {Hkv G dqk B Tq Tk : ℕ}
    (M : GroupedQueryAttention Hkv G dqk) (E : ℚ → ℚ)
    (query : Fin B → Fin Tq → Fin (Hkv * G * dqk) → ℚ)
    (key : Fin B → Fin Tk → Fin (Hkv * G * dqk) → ℚ)
    (mask : Option (Fin B → Fin (Hkv * G) → Fin Tq → Fin Tk → Bool))
    (c : Fin B × Fin (Hkv * G) × Fin Tq × Fin Tk → ℚ) :
    Fin B → Fin (Hkv * G) → Fin Tq → Fin Tk → ℚ :=
  fun b h i j => softmaxRow E (M.filled query key mask b h i) j * c (b, h, i, j)

/-- Per-head context `torch.matmul(attention_weights, v)`. -/
def GroupedQueryAttention.context {Hkv G dqk B Tq Tk : ℕ}
    (M : GroupedQueryAttention Hkv G dqk) (E : ℚ → ℚ)
    (query : Fin B → Fin Tq → Fin (Hkv * G * dqk) → ℚ)
    (key value : Fin B → Fin Tk → Fin (Hkv * G * dqk) → ℚ)
    (mask : Option (Fin B → Fin (Hkv * G) → Fin Tq → Fin Tk → Bool))
    (c : Fin B × Fin (Hkv * G) × Fin Tq × Fin Tk → ℚ) :
    Fin B → Fin (Hkv * G) → Fin Tq → Fin dqk → ℚ :=
  fun b h i d => ∑ j, M.attn E query key mask c b h i j * M.vExpanded value b h j d

/-- GroupedQueryAttention.forward: returns
`(self.output_proj(recombined context), attention_weights)`. -/
def GroupedQueryAttention.forward {Hkv G dqk B Tq Tk : ℕ}
    (M : GroupedQueryAttention Hkv G dqk) (E : ℚ → ℚ)
    (query : Fin B → Fin Tq → Fin (Hkv * G * dqk) → ℚ)
    (key value : Fin B → Fin Tk → Fin (Hkv * G * dqk) → ℚ)
    (mask : Option (Fin B → Fin (Hkv * G) → Fin Tq → Fin Tk → Bool))
    (c : Fin B × Fin (Hkv * G) × Fin Tq × Fin Tk → ℚ) :
    (Fin B → Fin Tq → Fin (Hkv * G * dqk) → ℚ) ×
      (Fin B → Fin (Hkv * G) → Fin Tq → Fin Tk → ℚ) :=
  (fun b t => M.output_proj.apply
      (combine_heads (Hkv * G) dqk (M.context E query key value mask c) b t),
   M.attn E query key mask c)

/-- CausalSelfAttention over `embedding_dim` features: three independent
projections, no output projection. -/
structure CausalSelfAttention (embedding_dim : ℕ) where
  query : Linear embedding_dim embedding_dim
  key : Linear embedding_dim embedding_dim
  value : Linear embedding_dim embedding_dim
  dropout_p : ℚ
  scale : ℚ

/-- The causal allow-mask `torch.tril(torch.ones(seq_len, seq_len))`:
entry `(i, j)` is `1` (allowed) iff `j ≤ i`. -/
def causal_mask (T : ℕ) : Fin T → Fin T → Bool :=
  fun i j => decide (j.1 ≤ i.1)

/-- Raw scores `torch.bmm(q, k.transpose(1, 2)) / self.scale`. -/
def CausalSelfAttention.scores {De B T : ℕ} (M : CausalSelfAttention De)
    (x : Fin B → Fin T → Fin De → ℚ) : Fin B → Fin T → Fin T → ℚ :=
  fun b i j =>
    (∑ d, M.query.apply (x b i) d * M.key.apply (x b j) d) / M.scale

/-- Scores after `scores.masked_fill(causal_mask == 0, -1e9)`. -/
def CausalSelfAttention.filled {De B T : ℕ} (M : CausalSelfAttention De)
    (x : Fin B → Fin T → Fin De → ℚ) : Fin B → Fin T → Fin T → ℚ :=
  fun b i j => if causal_mask T i j then M.scores x b i j else maskConst

/-- Attention weights returned by forward: softmax of the filled scores
times the sampled dropout tensor. -/
def CausalSelfAttention.attn {De B T : ℕ} (M : CausalSelfAttention De)
    (E : ℚ → ℚ) (x : Fin B → Fin T → Fin De → ℚ)
    (c : Fin B × Fin T × Fin T → ℚ) : Fin B → Fin T → Fin T → ℚ :=
  fun b i j => softmaxRow E (M.filled x b i) j * c (b, i, j)

/-- CausalSelfAttention.forward: returns
`(torch.bmm(attention, v), attention)`. -/
def CausalSelfAttention.forward {De B T : ℕ} (M : CausalSelfAttention De)
    (E : ℚ → ℚ) (x : Fin B → Fin T → Fin De → ℚ)
    (c : Fin B × Fin T × Fin T → ℚ) :
    (Fin B → Fin T → Fin De → ℚ) × (Fin B → Fin T → Fin T → ℚ) :=
  (fun b i d => ∑ j, M.attn E x c b i j * M.value.apply (x b j) d,
   M.attn E x c)

/-- Shape (list of dimension extents) semantics of `view(known…, -1, known…)`:
the `-1` extent is inferred from the element count, failing exactly when the
known extents do not divide it or multiply to zero. -/
def inferDim (known numel : ℕ) : Option ℕ :=
  if known ≠ 0 ∧ known ∣ numel then some (numel / known) else none

/-- Shape semantics of `x.view(batch_size, -1, num_heads, d_k)`. -/
def viewSplit (batch_size num_heads d_k : ℕ) (s : List ℕ) : Option (List ℕ) :=
  (inferDim (batch_size * num_heads * d_k) s.prod).map
    (fun t => [batch_size, t, num_heads, d_k])

/-- Shape semantics of `context.view(batch_size, -1, d_model)`. -/
def viewMerge (batch_size d_model : ℕ) (s : List ℕ) : Option (List ℕ) :=
  (inferDim (batch_size * d_model) s.prod).map
    (fun t => [batch_size, t, d_model])

/-- Shape semantics of `nn.Linear(inF, outF)` on the 3-D activations the
notebook feeds it: the last extent must equal `inF`. -/
def linear3Shape (inF outF : ℕ) : List ℕ → Option (List ℕ)
  | [a, b, c] => if c = inF then some [a, b, outF] else none
  | _ => none

/-- Shape semantics of `permute(0, 2, 1, 3)`. -/
def permute0213Shape : List ℕ → Option (List ℕ)
  | [a, b, c, d] => some [a, c, b, d]
  | _ => none

/-- Shape semantics of `transpose(-2, -1)` on a 4-D tensor. -/
def transposeLast2Shape : List ℕ → Option (List ℕ)
  | [a, b, c, d] => some [a, b, d, c]
  | _ => none

/-- Shape semantics of 4-D batched `torch.matmul`: leading extents must
agree and the inner extents must match. -/
def matmul4Shape : List ℕ → List ℕ → Option (List ℕ)
  | [a, b, m, k], [a2, b2, k2, n] =>
    if a = a2 ∧ b = b2 ∧ k = k2 then some [a, b, m, n] else none
  | _, _ => none

/-- Shape semantics of one `self.split_heads(self.xxx_proj(x), batch_size)`
line: linear projection, `view(batch_size, -1, num_heads, d_k)`,
`permute(0, 2, 1, 3)`. -/
def projSplitShape (d_model num_heads batch_size : ℕ) (s : List ℕ) :
    Option (List ℕ) :=
  (linear3Shape d_model d_model s).bind fun y1 =>
  (viewSplit batch_size num_heads (d_model / num_heads) y1).bind fun y2 =>
  permute0213Shape y2

/-- Shape semantics of `torch.matmul(Q, K.transpose(-2, -1))`
(`masked_fill`, `softmax` and `dropout` then preserve this shape). -/
def scoreShape (Q K : List ℕ) : Option (List ℕ) :=
  (transposeLast2Shape K).bind fun Kt => matmul4Shape Q Kt

/-- Shape semantics of the tail of forward: `torch.matmul(attn, V)`,
`permute(0, 2, 1, 3).contiguous()`, `view(batch_size, -1, d_model)` and the
final output projection. -/
def outputShape (batch_size d_model : ℕ) (attn V : List ℕ) :
    Option (List ℕ) :=
  (matmul4Shape attn V).bind fun ctx =>
  (permute0213Shape ctx).bind fun ctx2 =>
  (viewMerge batch_size d_model ctx2).bind fun ctx3 =>
  linear3Shape d_model d_model ctx3

/-- Shape-level reading of MultiHeadAttention.forward, composed of the
shape semantics of the source's tensor operations in source order; returns
(output shape, attention-weight shape). -/
def mhaForwardShape (d_model num_heads : ℕ) (qs ks vs : List ℕ) :
    Option (List ℕ × List ℕ) :=
  (qs.head?).bind fun batch_size =>
  (projSplitShape d_model num_heads batch_size qs).bind fun Q =>
  (projSplitShape d_model num_heads batch_size ks).bind fun K =>
  (projSplitShape d_model num_heads batch_size vs).bind fun V =>
  (scoreShape Q K).bind fun attn =>
  (outputShape batch_size d_model attn V).bind fun out =>
  some (out, attn)

/-- A concrete engine exponential for evaluating the theorems at explicit
inputs: it underflows to `0` at or below `-1e8` and is `1` elsewhere.
At every point where a concrete evaluation below reads it (`0` and values
at or below `-10^8`) it agrees exactly with IEEE floating-point `exp`. -/
def Ewit : ℚ → ℚ := fun x => if x ≤ -(10 ^ 8) then 0 else 1

/-- An all-zero linear layer, for concrete module instances. -/
def zeroLinear (inF outF : ℕ) : Linear inF outF :=
  ⟨fun _ _ => 0, fun _ => 0⟩

/-- A concrete `MultiHeadAttention` instance with zero weights, unit scale
and dropout probability `p`. -/
def mhaZero (H dk : ℕ) (p : ℚ) : MultiHeadAttention H dk :=
  ⟨zeroLinear _ _, zeroLinear _ _, zeroLinear _ _, zeroLinear _ _, p, 1⟩

/-- A concrete `GroupedQueryAttention` instance with zero weights, unit
scale and dropout probability `p`. -/
def gqaZero (Hkv G dqk : ℕ) (p : ℚ) : GroupedQueryAttention Hkv G dqk :=
  ⟨zeroLinear _ _, zeroLinear _ _, zeroLinear _ _, zeroLinear _ _, p, 1⟩

/-- A concrete `CausalSelfAttention` instance with zero weights, unit scale
and dropout probability `p`. -/
def csaZero (De : ℕ) (p : ℚ) : CausalSelfAttention De :=
  ⟨zeroLinear _ _, zeroLinear _ _, zeroLinear _ _, p, 1⟩

/-- A concrete `CausalSelfAttention` instance over one feature whose query
projection is the identity and whose key projection is negation: on large
inputs its diagonal scores sink below the `-1e9` mask constant. -/
def csaCex : CausalSelfAttention 1 :=
  ⟨⟨fun _ _ => 1, fun _ => 0⟩, ⟨fun _ _ => -1, fun _ => 0⟩,
   ⟨fun _ _ => 1, fun _ => 0⟩, 0, 1⟩

/-- A concrete input batch (one batch element, two positions, one feature)
whose first position carries an extreme value `1e5`. -/
def xCex : Fin 1 → Fin 2 → Fin 1 → ℚ :=
  fun _ t _ => if t.1 = 0 then 10 ^ 5 else 0

end InsideLLM

namespace InsideLLM

/-- Below a fold of `max`: the initial value and every list element are
lower bounds of the fold. -/
theorem le_foldr_max (init : ℚ) (l : List ℚ) (a : ℚ)
    (h : a = init ∨ a ∈ l) : a ≤ l.foldr max init := by
  induction l with
  | nil =>
    rcases h with h | h
    · exact le_of_eq h
    · simp at h
  | cons x t ih =>
    simp only [List.foldr_cons]
    rcases h with h | h
    · exact le_trans (ih (Or.inl h)) (le_max_right _ _)
    · rcases List.mem_cons.mp h with h | h
      · exact h ▸ le_max_left _ _
      · exact le_trans (ih (Or.inr h)) (le_max_right _ _)

/-- A fold of `max` is the initial value or one of the list elements. -/
theorem foldr_max_cases (init : ℚ) (l : List ℚ) :
    l.foldr max init = init ∨ l.foldr max init ∈ l := by
  induction l with
  | nil => exact Or.inl rfl
  | cons x t ih =>
    simp only [List.foldr_cons]
    rcases le_total x (t.foldr max init) with h | h
    · rw [max_eq_right h]
      rcases ih with h2 | h2
      · exact Or.inl h2
      · exact Or.inr (List.mem_cons_of_mem _ h2)
    · rw [max_eq_left h]
      exact Or.inr (List.mem_cons_self _ _)

/-- Folding `max` over copies of the initial value gives it back. -/
theorem foldr_max_replicate (a : ℚ) (k : ℕ) :
    (List.replicate k a).foldr max a = a := by
  induction k with
  | zero => rfl
  | succ m ih => simp [List.replicate_succ, List.foldr_cons, ih, max_self]

/-- Every entry of a row is at most the row maximum. -/
theorem le_rowMax {n : ℕ} (r : Fin n → ℚ) (j : Fin n) : r j ≤ rowMax r := by
  cases n with
  | zero => exact j.elim0
  | succ m =>
    show r j ≤ List.foldr max (r 0) (List.ofFn fun i => r i.succ)
    refine le_foldr_max _ _ _ ?_
    rcases Fin.eq_zero_or_eq_succ j with h | ⟨i, hi⟩
    · exact Or.inl (by rw [h])
    · refine Or.inr ?_
      rw [hi]
      exact (List.mem_ofFn _ _).mpr ⟨i, rfl⟩

/-- The row maximum of a nonempty row is attained. -/
theorem rowMax_attained {n : ℕ} (hn : 0 < n) (r : Fin n → ℚ) :
    ∃ jm, rowMax r = r jm := by
  cases n with
  | zero => omega
  | succ m =>
    show ∃ jm, List.foldr max (r 0) (List.ofFn fun i => r i.succ) = r jm
    rcases foldr_max_cases (r 0) (List.ofFn fun i => r i.succ) with h | h
    · exact ⟨0, h⟩
    · obtain ⟨i, hi⟩ := (List.mem_ofFn _ _).mp h
      exact ⟨i.succ, hi.symm⟩

/-- The row maximum of a nonempty constant row is that constant. -/
theorem rowMax_const {n : ℕ} (hn : 0 < n) (a : ℚ) :
    rowMax (fun _ : Fin n => a) = a := by
  cases n with
  | zero => omega
  | succ m =>
    show List.foldr max a (List.ofFn fun _ => a) = a
    rw [List.ofFn_const]
    exact foldr_max_replicate a m

/-- A softmax row over a nonempty index set sums to exactly `1` whenever
the engine exponential is nonnegative and positive at `0` (the shifted
argmax entry): the denominator is then nonzero. -/
theorem softmaxRow_sum_eq_one {n : ℕ} (E : ℚ → ℚ) (hEnn : ∀ x, 0 ≤ E x)
    (hE0 : 0 < E 0) (hn : 0 < n) (r : Fin n → ℚ) :
    (∑ j, softmaxRow E r j) = 1 := by
  obtain ⟨jm, hjm⟩ := rowMax_attained hn r
  have hden : 0 < ∑ k, E (r k - rowMax r) := by
    refine Finset.sum_pos' (fun k _ => hEnn _) ⟨jm, Finset.mem_univ _, ?_⟩
    rw [hjm, sub_self]
    exact hE0
  unfold softmaxRow
  rw [← Finset.sum_div]
  exact div_self (ne_of_gt hden)

/-- Softmax entries are nonnegative for a nonnegative engine exponential. -/
theorem softmaxRow_nonneg {n : ℕ} (E : ℚ → ℚ) (hEnn : ∀ x, 0 ≤ E x)
    (r : Fin n → ℚ) (j : Fin n) : 0 ≤ softmaxRow E r j :=
  div_nonneg (hEnn _) (Finset.sum_nonneg fun _ _ => hEnn _)

/-- An entry filled with the `-1e9` mask constant gets softmax weight
exactly `0`, provided the row maximum stays above `-9e8`: its shifted
argument is then at most `-1e8`, where the engine exponential underflows. -/
theorem softmaxRow_masked_zero {n : ℕ} (E : ℚ → ℚ)
    (hEuf : ∀ x : ℚ, x ≤ -(10 ^ 8) → E x = 0) (r : Fin n → ℚ) (j : Fin n)
    (hj : r j = maskConst) (hmax : -(9 * 10 ^ 8) ≤ rowMax r) :
    softmaxRow E r j = 0 := by
  unfold softmaxRow
  rw [hEuf _ (by rw [hj]; unfold maskConst; norm_num; linarith), zero_div]

/-- Restricted row sums: if every entry outside `p` is filled with the mask
constant and some entry inside `p` keeps a score above `-9e8`, the softmax
mass restricted to `p` is exactly `1` (the masked entries get weight `0`). -/
theorem restricted_softmaxRow_sum {n : ℕ} (E : ℚ → ℚ) (hEnn : ∀ x, 0 ≤ E x)
    (hE0 : 0 < E 0) (hEuf : ∀ x : ℚ, x ≤ -(10 ^ 8) → E x = 0)
    (r : Fin n → ℚ) (p : Fin n → Bool)
    (hmask : ∀ j, p j = false → r j = maskConst)
    (h0 : ∃ j, p j = true ∧ -(9 * 10 ^ 8) ≤ r j) :
    ∑ j ∈ Finset.univ.filter (fun j => p j = true), softmaxRow E r j = 1 := by
  obtain ⟨j0, hp0, hs0⟩ := h0
  have hn : 0 < n := j0.pos
  have hmax : -(9 * 10 ^ 8 : ℚ) ≤ rowMax r := le_trans hs0 (le_rowMax r j0)
  have htot := softmaxRow_sum_eq_one E hEnn hE0 hn r
  rw [← Finset.sum_filter_add_sum_filter_not Finset.univ (fun j => p j = true)
    (softmaxRow E r)] at htot
  have hz : ∑ j ∈ Finset.univ.filter (fun j => ¬ p j = true),
      softmaxRow E r j = 0 := by
    refine Finset.sum_eq_zero fun j hj => ?_
    have hpj : p j = false := by
      have := (Finset.mem_filter.mp hj).2
      simpa using this
    exact softmaxRow_masked_zero E hEuf r j (hmask j hpj) hmax
  rw [hz, add_zero] at htot
  exact htot

/-- A legal dropout draw for probability `0` is identically `1`
(`1/(1-0) = 1`, and dropping requires `0 < p`). -/
theorem dropoutDraw_zero_eq_one {ι : Type} {c : ι → ℚ}
    (hc : DropoutDraw 0 c) : ∀ i, c i = 1 := by
  intro i
  rcases hc i with h | h
  · rw [h]; norm_num
  · exact absurd h.2 (lt_irrefl 0)

/-- Length of `repeatInterleaveList`. -/
theorem repeatInterleaveList_length {α : Type} (G : ℕ) (l : List α) :
    (repeatInterleaveList G l).length = G * l.length := by
  induction l with
  | nil => rfl
  | cons a t ih =>
    simp only [repeatInterleaveList, List.length_append, List.length_replicate,
      ih, List.length_cons, Nat.mul_succ]
    omega

/-- Indexing into `repeatInterleaveList`: entry `i` is source entry
`⌊i / G⌋` — contiguous duplication, not interleaving. -/
theorem repeatInterleaveList_getElem {α : Type} (G : ℕ) (l : List α) (i : ℕ)
    (hi : i < (repeatInterleaveList G l).length) (hd : i / G < l.length) :
    (repeatInterleaveList G l)[i] = l[i / G] := by
  induction l generalizing i with
  | nil => simp at hd
  | cons a t ih =>
    have hG : 0 < G := by
      rcases Nat.eq_zero_or_pos G with h | h
      · subst h
        rw [repeatInterleaveList_length] at hi
        omega
      · exact h
    have hi' := hi
    rw [repeatInterleaveList_length, List.length_cons, Nat.mul_succ] at hi'
    by_cases h : i < G
    · have hdiv : i / G = 0 := Nat.div_eq_of_lt h
      simp only [repeatInterleaveList]
      rw [List.getElem_append_left (by simpa using h)]
      rw [List.getElem_replicate]
      simp [hdiv]
    · push_neg at h
      have key : i / G = (i - G) / G + 1 := by
        conv_lhs => rw [← Nat.sub_add_cancel h]
        rw [Nat.add_div_right _ hG]
      have hi2 : i - G < (repeatInterleaveList G t).length := by
        rw [repeatInterleaveList_length]
        omega
      have hd2 : (i - G) / G < t.length := by
        rw [List.length_cons, key] at hd
        omega
      simp only [repeatInterleaveList]
      rw [List.getElem_append_right (by simpa using h)]
      simp only [List.length_replicate]
      rw [ih (i - G) hi2 hd2]
      simp only [key, List.getElem_cons_succ]

/-- Reading `expandHeads` at head `i` gives the original head `⌊i / G⌋`. -/
theorem expandHeads_eq {α : Type} {G Hkv : ℕ} (f : Fin Hkv → α)
    (i : Fin (Hkv * G)) : expandHeads G f i = f (groupIndex i) := by
  unfold expandHeads
  have hd : (i : ℕ) / G < (List.ofFn f).length := by
    rw [List.length_ofFn]
    exact (groupIndex i).2
  simp only [List.get_eq_getElem, Fin.coe_cast]
  rw [repeatInterleaveList_getElem G (List.ofFn f) (i : ℕ) (by
    rw [repeatInterleaveList_length, List.length_ofFn]
    exact lt_of_lt_of_eq i.2 (Nat.mul_comm Hkv G)) hd]
  rw [List.getElem_ofFn]
  exact congrArg f (Fin.ext rfl)

/-- C4: constructing `MultiHeadAttention` fails iff `d_model` is not evenly
divisible by `num_heads` (evenly divisible meaning a nonzero head count
dividing `d_model`); in particular `d_model = 64, num_heads = 7` raises,
and the divisible configuration `64, 8` succeeds. -/
theorem c4_mha_init_divisibility :
    (∀ d_model num_heads : ℕ,
      isOkB (MultiHeadAttention.init d_model num_heads) = true ↔
        (0 < num_heads ∧ num_heads ∣ d_model)) ∧
    isOkB (MultiHeadAttention.init 64 7) = false ∧
    isOkB (MultiHeadAttention.init 64 8) = true := by
  refine ⟨fun d h => ?_, by decide, by decide⟩
  by_cases hz : h = 0
  · subst hz
    simp [MultiHeadAttention.init, pymod, isOkB, Bind.bind, Except.bind]
  · by_cases hm : d % h = 0
    · simp [MultiHeadAttention.init, pymod, hz, hm, isOkB, Bind.bind, Except.bind,
        Nat.pos_of_ne_zero hz, Nat.dvd_of_mod_eq_zero hm]
    · have hnd : ¬ h ∣ d := fun hd => hm (Nat.mod_eq_zero_of_dvd hd)
      simp [MultiHeadAttention.init, pymod, hz, hm, isOkB, Bind.bind, Except.bind, hnd]

/-- C5: constructing `GroupedQueryAttention` fails iff at least one of the
three divisibility preconditions fails — `d_model` evenly divisible by
`num_query_heads`, `d_model` evenly divisible by `num_kv_heads`, and
`num_query_heads` evenly divisible by `num_kv_heads` (evenly divisible
meaning a nonzero divisor); in particular `num_query_heads = 8,
num_kv_heads = 3` raises even when both head counts divide `d_model = 24`. -/
theorem c5_gqa_init_divisibility :
    (∀ d_model num_query_heads num_kv_heads : ℕ,
      isOkB (GroupedQueryAttention.init d_model num_query_heads num_kv_heads) = true ↔
        (0 < num_query_heads ∧ num_query_heads ∣ d_model ∧
         0 < num_kv_heads ∧ num_kv_heads ∣ d_model ∧
         num_kv_heads ∣ num_query_heads)) ∧
    isOkB (GroupedQueryAttention.init 24 8 3) = false := by
  refine ⟨fun d hq hkv => ?_, by decide⟩
  by_cases hz1 : hq = 0
  · subst hz1
    simp [GroupedQueryAttention.init, pymod, isOkB, Bind.bind, Except.bind]
  · by_cases hm1 : d % hq = 0
    · by_cases hz2 : hkv = 0
      · subst hz2
        simp [GroupedQueryAttention.init, pymod, hz1, hm1, isOkB, Bind.bind,
          Except.bind]
      · by_cases hm2 : d % hkv = 0
        · by_cases hm3 : hq % hkv = 0
          · simp [GroupedQueryAttention.init, pymod, hz1, hz2, hm1, hm2, hm3,
              isOkB, Bind.bind, Except.bind, Nat.pos_of_ne_zero hz1,
              Nat.pos_of_ne_zero hz2, Nat.dvd_of_mod_eq_zero hm1,
              Nat.dvd_of_mod_eq_zero hm2, Nat.dvd_of_mod_eq_zero hm3]
          · have hnd : ¬ hkv ∣ hq := fun hd => hm3 (Nat.mod_eq_zero_of_dvd hd)
            simp [GroupedQueryAttention.init, pymod, hz1, hz2, hm1, hm2, hm3,
              isOkB, Bind.bind, Except.bind, hnd]
        · have hnd : ¬ hkv ∣ d := fun hd => hm2 (Nat.mod_eq_zero_of_dvd hd)
          simp [GroupedQueryAttention.init, pymod, hz1, hz2, hm1, hm2,
            isOkB, Bind.bind, Except.bind, hnd]
    · have hnd : ¬ hq ∣ d := fun hd => hm1 (Nat.mod_eq_zero_of_dvd hd)
      simp [GroupedQueryAttention.init, pymod, hz1, hm1, isOkB, Bind.bind,
        Except.bind, hnd]

/-- C2: in `GroupedQueryAttention.forward`, after Key and Value are
expanded along the head axis by `repeat_interleave` with the group size
`G = kv_groups`, expanded head `i` is element-wise identical to original
kv-head `⌊i / G⌋`, for every query-head index `i` and batch element —
contiguous duplication of each kv head, not interleaving. -/
theorem c2_gqa_expanded_head_is_floor_div {Hkv G dqk B Tk : ℕ}
    (M : GroupedQueryAttention Hkv G dqk)
    (key value : Fin B → Fin Tk → Fin (Hkv * G * dqk) → ℚ)
    (b : Fin B) (i : Fin (Hkv * G)) :
    M.kExpanded key b i = M.kHeads key b (groupIndex i) ∧
    M.vExpanded value b i = M.vHeads value b (groupIndex i) := by
  unfold GroupedQueryAttention.kExpanded GroupedQueryAttention.vExpanded
  exact ⟨expandHeads_eq _ i, expandHeads_eq _ i⟩

/-- C10: the head-recombination step of `MultiHeadAttention.forward`
(permute the head axis back, then merge head and per-head axes) is the
exact inverse of `MultiHeadAttention.split_heads`: recombining
`split_heads x` yields `x` again, for every `(B, T, H*dk)` tensor. -/
theorem c10_combine_heads_inverts_split_heads {H dk B T : ℕ}
    (x : Fin B → Fin T → Fin (H * dk) → ℚ) :
    combine_heads H dk (split_heads H dk x) = x := by
  funext b t d
  unfold combine_heads split_heads
  suffices h : finMerge (headIndex d) (subIndex d) = d by rw [h]
  apply Fin.ext
  show d.1 / dk * dk + d.1 % dk = d.1
  rw [Nat.mul_comm]
  exact Nat.div_add_mod d.1 dk

/-- Softmax of a constant row is the uniform distribution `1/n`: after
subtracting the row maximum every shifted argument is `0`. -/
theorem softmaxRow_const_uniform {n : ℕ} (E : ℚ → ℚ) (hE0 : E 0 ≠ 0) (a : ℚ)
    (j : Fin n) : softmaxRow E (fun _ => a) j = 1 / (n : ℚ) := by
  have hn : 0 < n := j.pos
  unfold softmaxRow
  rw [rowMax_const hn a, sub_self]
  rw [Finset.sum_const, Finset.card_univ, Fintype.card_fin, nsmul_eq_mul]
  have hnq : (n : ℚ) ≠ 0 := Nat.cast_ne_zero.mpr (Nat.pos_iff_ne_zero.mp hn)
  field_simp
  ring

/-- C9: for `MultiHeadAttention` and `GroupedQueryAttention` with dropout
probability `0` and a caller-supplied mask whose entries for some query row
are all zero (every key position disallowed), the returned attention-weight
row for that query position is the uniform distribution — every entry,
masked positions included, equals `1/T_k` — so fully masked key positions
receive nonzero attention weight rather than vanishing. -/
theorem c9_fully_masked_row_uniform :
    (∀ (H dk B Tq Tk : ℕ) (M : MultiHeadAttention H dk) (E : ℚ → ℚ)
      (query : Fin B → Fin Tq → Fin (H * dk) → ℚ)
      (key value : Fin B → Fin Tk → Fin (H * dk) → ℚ)
      (m : Fin B → Fin H → Fin Tq → Fin Tk → Bool)
      (c : Fin B × Fin H × Fin Tq × Fin Tk → ℚ),
      E 0 ≠ 0 → DropoutDraw 0 c →
      ∀ (b : Fin B) (h : Fin H) (i : Fin Tq), (∀ j, m b h i j = false) →
      ∀ j, (M.forward E query key value (some m) c).2 b h i j = 1 / (Tk : ℚ)) ∧
    (∀ (Hkv G dqk B Tq Tk : ℕ) (M : GroupedQueryAttention Hkv G dqk) (E : ℚ → ℚ)
      (query : Fin B → Fin Tq → Fin (Hkv * G * dqk) → ℚ)
      (key value : Fin B → Fin Tk → Fin (Hkv * G * dqk) → ℚ)
      (m : Fin B → Fin (Hkv * G) → Fin Tq → Fin Tk → Bool)
      (c : Fin B × Fin (Hkv * G) × Fin Tq × Fin Tk → ℚ),
      E 0 ≠ 0 → DropoutDraw 0 c →
      ∀ (b : Fin B) (h : Fin (Hkv * G)) (i : Fin Tq), (∀ j, m b h i j = false) →
      ∀ j, (M.forward E query key value (some m) c).2 b h i j = 1 / (Tk : ℚ)) := by
  constructor
  · intro H dk B Tq Tk M E query key value m c hE0 hc b h i hm j
    have h1 := dropoutDraw_zero_eq_one hc
    show M.attn E query key (some m) c b h i j = _
    unfold MultiHeadAttention.attn
    rw [h1, mul_one]
    have hre : M.filled query key (some m) b h i = fun _ => maskConst :=
      funext fun j2 => by simp [MultiHeadAttention.filled, hm j2]
    rw [hre]
    exact softmaxRow_const_uniform E hE0 maskConst j
  · intro Hkv G dqk B Tq Tk M E query key value m c hE0 hc b h i hm j
    have h1 := dropoutDraw_zero_eq_one hc
    show M.attn E query key (some m) c b h i j = _
    unfold GroupedQueryAttention.attn
    rw [h1, mul_one]
    have hre : M.filled query key (some m) b h i = fun _ => maskConst :=
      funext fun j2 => by simp [GroupedQueryAttention.filled, hm j2]
    rw [hre]
    exact softmaxRow_const_uniform E hE0 maskConst j

/-- Concrete evaluation of C9: a `1×1×1×2` multi-head module with a mask
allowing no key position returns the uniform row `[1/2, 1/2]`. -/
theorem c9_witness :
    Ewit 0 ≠ 0 ∧
    DropoutDraw 0 (fun _ : Fin 1 × Fin 1 × Fin 1 × Fin 2 => (1 : ℚ)) ∧
    ((mhaZero 1 1 0).forward Ewit
        (fun _ _ _ => 0 : Fin 1 → Fin 1 → Fin (1 * 1) → ℚ)
        (fun _ _ _ => 0 : Fin 1 → Fin 2 → Fin (1 * 1) → ℚ)
        (fun _ _ _ => 0 : Fin 1 → Fin 2 → Fin (1 * 1) → ℚ)
        (some (fun _ _ _ _ => false)) (fun _ => 1)).2
      0 0 0 0 = 1 / ((2 : ℕ) : ℚ) := by
  have hE : Ewit 0 ≠ 0 := by norm_num [Ewit]
  have hc : DropoutDraw 0 (fun _ : Fin 1 × Fin 1 × Fin 1 × Fin 2 => (1 : ℚ)) :=
    fun _ => Or.inl (by norm_num)
  exact ⟨hE, hc,
    c9_fully_masked_row_uniform.1 1 1 1 1 2 (mhaZero 1 1 0) Ewit _ _ _ _ _
      hE hc 0 0 0 (fun _ => rfl) 0⟩

/-- C1 fails as universally stated: on an extreme input whose diagonal
score sinks below the `-1e9` mask constant, the row maximum of the filled
scores is the masked entry itself, so softmax puts weight `1` on a
strictly-above-diagonal (future) position. -/
theorem c1_counterexample :
    (0 : Fin 2).1 < (1 : Fin 2).1 ∧
    (csaCex.forward Ewit xCex (fun _ => 1)).2 0 0 1 ≠ 0 := by
  refine ⟨by decide, ?_⟩
  have hval : (csaCex.forward Ewit xCex (fun _ => 1)).2 0 0 1 = 1 := by
    show csaCex.attn Ewit xCex (fun _ => 1) 0 0 1 = 1
    simp only [CausalSelfAttention.attn, CausalSelfAttention.filled,
      CausalSelfAttention.scores, causal_mask, csaCex, xCex, Linear.apply,
      softmaxRow, rowMax, maskConst, Ewit, Fin.sum_univ_one, Fin.sum_univ_two,
      List.ofFn_succ, List.ofFn_zero, List.foldr_cons, List.foldr_nil]
    norm_num [max_def]
  rw [hval]
  norm_num

/-- C1 (amended): every strictly-above-diagonal entry of the attention
matrix returned by `CausalSelfAttention.forward` is exactly zero, for every
batch element, every dropout draw and every input whose diagonal raw scores
stay above `-9e8` (that is, scores do not sink to the `-1e9` mask
constant's magnitude; automatic for non-extreme inputs), under the
float-exponential underflow model. -/
theorem c1_causal_strict_upper_zero {De B T : ℕ} (M : CausalSelfAttention De)
    (E : ℚ → ℚ) (x : Fin B → Fin T → Fin De → ℚ)
    (c : Fin B × Fin T × Fin T → ℚ)
    (hEuf : ∀ y : ℚ, y ≤ -(10 ^ 8) → E y = 0)
    (hdiag : ∀ (b : Fin B) (i : Fin T), -(9 * 10 ^ 8) ≤ M.scores x b i i)
    (b : Fin B) (i j : Fin T) (hij : i.1 < j.1) :
    (M.forward E x c).2 b i j = 0 := by
  show M.attn E x c b i j = 0
  unfold CausalSelfAttention.attn
  have hmask : M.filled x b i j = maskConst := by
    unfold CausalSelfAttention.filled
    rw [if_neg]
    simp only [causal_mask, decide_eq_true_eq]
    omega
  have hmax : -(9 * 10 ^ 8 : ℚ) ≤ rowMax (M.filled x b i) := by
    refine le_trans ?_ (le_rowMax _ i)
    have hii : M.filled x b i i = M.scores x b i i := by
      unfold CausalSelfAttention.filled
      rw [if_pos]
      simp [causal_mask]
    rw [hii]
    exact hdiag b i
  rw [softmaxRow_masked_zero E hEuf _ j hmask hmax, zero_mul]

/-- Concrete evaluation of the amended C1: an all-zero causal module on a
zero input (diagonal scores `0 ≥ -9e8`) puts weight exactly `0` on the
above-diagonal position `(0, 1)`. -/
theorem c1_witness :
    (∀ y : ℚ, y ≤ -(10 ^ 8) → Ewit y = 0) ∧
    (∀ (b : Fin 1) (i : Fin 2),
      -(9 * 10 ^ 8 : ℚ) ≤
        (csaZero 1 0).scores (fun _ _ _ => 0 : Fin 1 → Fin 2 → Fin 1 → ℚ) b i i) ∧
    ((csaZero 1 0).forward Ewit
        (fun _ _ _ => 0 : Fin 1 → Fin 2 → Fin 1 → ℚ) (fun _ => 1)).2 0 0 1 = 0 := by
  have h1 : ∀ y : ℚ, y ≤ -(10 ^ 8) → Ewit y = 0 := by
    intro y hy
    unfold Ewit
    rw [if_pos hy]
  have h2 : ∀ (b : Fin 1) (i : Fin 2),
      -(9 * 10 ^ 8 : ℚ) ≤
        (csaZero 1 0).scores (fun _ _ _ => 0 : Fin 1 → Fin 2 → Fin 1 → ℚ) b i i := by
    intro b i
    simp only [CausalSelfAttention.scores, csaZero, zeroLinear, Linear.apply,
      Fin.sum_univ_one]
    norm_num
  exact ⟨h1, h2,
    c1_causal_strict_upper_zero (csaZero 1 0) Ewit
      (fun _ _ _ => 0 : Fin 1 → Fin 2 → Fin 1 → ℚ) (fun _ => 1)
      h1 h2 0 0 1 (by decide)⟩

/-- C6 fails as stated for rows of a caller-supplied mask permitting no key
position: there the set of unmasked entries is empty, so the restricted sum
is `0`, not `1` within any tolerance (here `1/2`). -/
theorem c6_counterexample :
    DropoutDraw 0 (fun _ : Fin 1 × Fin 1 × Fin 1 × Fin 1 => (1 : ℚ)) ∧
    ¬ |(∑ j ∈ Finset.univ.filter
          (fun j : Fin 1 =>
            (fun _ _ _ _ => false : Fin 1 → Fin 1 → Fin 1 → Fin 1 → Bool)
              0 0 0 j = true),
        ((mhaZero 1 1 0).forward Ewit
          (fun _ _ _ => 0 : Fin 1 → Fin 1 → Fin (1 * 1) → ℚ)
          (fun _ _ _ => 0 : Fin 1 → Fin 1 → Fin (1 * 1) → ℚ)
          (fun _ _ _ => 0 : Fin 1 → Fin 1 → Fin (1 * 1) → ℚ)
          (some (fun _ _ _ _ => false)) (fun _ => 1)).2 0 0 0 j) - 1| ≤
      1 / 2 := by
  constructor
  · exact fun _ => Or.inl (by norm_num)
  · have hempty : (Finset.univ.filter
        (fun j : Fin 1 =>
          (fun _ _ _ _ => false : Fin 1 → Fin 1 → Fin 1 → Fin 1 → Bool)
            0 0 0 j = true)) = ∅ := by
      simp
    rw [hempty, Finset.sum_empty]
    norm_num

/-- C6 (amended): with dropout probability `0`, every attention row
restricted to its unmasked entries sums to exactly `1`, provided the row
has at least one unmasked entry whose raw score stays above `-9e8`
(automatic for non-extreme inputs; a row whose mask permits no key position
instead sums to `0` over its — empty — unmasked entries, see the
counterexample).  Stated for `MultiHeadAttention` and
`GroupedQueryAttention` under a caller mask, for `CausalSelfAttention`
under its internal causal mask (proviso: some causally-allowed entry of
the row scores above `-9e8`; the diagonal is always allowed), and for the
unmasked (`mask = None`) calls of both `MultiHeadAttention` and
`GroupedQueryAttention`, where the full row sums to `1`. -/
theorem c6_unmasked_row_sums_to_one :
    (∀ (H dk B Tq Tk : ℕ) (M : MultiHeadAttention H dk) (E : ℚ → ℚ)
      (query : Fin B → Fin Tq → Fin (H * dk) → ℚ)
      (key value : Fin B → Fin Tk → Fin (H * dk) → ℚ)
      (m : Fin B → Fin H → Fin Tq → Fin Tk → Bool)
      (c : Fin B × Fin H × Fin Tq × Fin Tk → ℚ),
      (∀ y, 0 ≤ E y) → 0 < E 0 → (∀ y : ℚ, y ≤ -(10 ^ 8) → E y = 0) →
      DropoutDraw 0 c →
      ∀ (b : Fin B) (h : Fin H) (i : Fin Tq),
      (∃ j, m b h i j = true ∧ -(9 * 10 ^ 8) ≤ M.scores query key b h i j) →
      ∑ j ∈ Finset.univ.filter (fun j => m b h i j = true),
        (M.forward E query key value (some m) c).2 b h i j = 1) ∧
    (∀ (Hkv G dqk B Tq Tk : ℕ) (M : GroupedQueryAttention Hkv G dqk)
      (E : ℚ → ℚ)
      (query : Fin B → Fin Tq → Fin (Hkv * G * dqk) → ℚ)
      (key value : Fin B → Fin Tk → Fin (Hkv * G * dqk) → ℚ)
      (m : Fin B → Fin (Hkv * G) → Fin Tq → Fin Tk → Bool)
      (c : Fin B × Fin (Hkv * G) × Fin Tq × Fin Tk → ℚ),
      (∀ y, 0 ≤ E y) → 0 < E 0 → (∀ y : ℚ, y ≤ -(10 ^ 8) → E y = 0) →
      DropoutDraw 0 c →
      ∀ (b : Fin B) (h : Fin (Hkv * G)) (i : Fin Tq),
      (∃ j, m b h i j = true ∧ -(9 * 10 ^ 8) ≤ M.scores query key b h i j) →
      ∑ j ∈ Finset.univ.filter (fun j => m b h i j = true),
        (M.forward E query key value (some m) c).2 b h i j = 1) ∧
    (∀ (De B T : ℕ) (M : CausalSelfAttention De) (E : ℚ → ℚ)
      (x : Fin B → Fin T → Fin De → ℚ) (c : Fin B × Fin T × Fin T → ℚ),
      (∀ y, 0 ≤ E y) → 0 < E 0 → (∀ y : ℚ, y ≤ -(10 ^ 8) → E y = 0) →
      DropoutDraw 0 c →
      ∀ (b : Fin B) (i : Fin T),
      (∃ j, causal_mask T i j = true ∧ -(9 * 10 ^ 8) ≤ M.scores x b i j) →
      ∑ j ∈ Finset.univ.filter (fun j => causal_mask T i j = true),
        (M.forward E x c).2 b i j = 1) ∧
    (∀ (H dk B Tq Tk : ℕ) (M : MultiHeadAttention H dk) (E : ℚ → ℚ)
      (query : Fin B → Fin Tq → Fin (H * dk) → ℚ)
      (key value : Fin B → Fin Tk → Fin (H * dk) → ℚ)
      (c : Fin B × Fin H × Fin Tq × Fin Tk → ℚ),
      (∀ y, 0 ≤ E y) → 0 < E 0 → DropoutDraw 0 c → 0 < Tk →
      ∀ (b : Fin B) (h : Fin H) (i : Fin Tq),
      ∑ j, (M.forward E query key value none c).2 b h i j = 1) ∧
    (∀ (Hkv G dqk B Tq Tk : ℕ) (M : GroupedQueryAttention Hkv G dqk)
      (E : ℚ → ℚ)
      (query : Fin B → Fin Tq → Fin (Hkv * G * dqk) → ℚ)
      (key value : Fin B → Fin Tk → Fin (Hkv * G * dqk) → ℚ)
      (c : Fin B × Fin (Hkv * G) × Fin Tq × Fin Tk → ℚ),
      (∀ y, 0 ≤ E y) → 0 < E 0 → DropoutDraw 0 c → 0 < Tk →
      ∀ (b : Fin B) (h : Fin (Hkv * G)) (i : Fin Tq),
      ∑ j, (M.forward E query key value none c).2 b h i j = 1) := by
  refine ⟨?_, ?_, ?_, ?_, ?_⟩
  · intro H dk B Tq Tk M E query key value m c hEnn hE0 hEuf hc b h i hex
    have h1 := dropoutDraw_zero_eq_one hc
    have hshow : ∀ j, (M.forward E query key value (some m) c).2 b h i j =
        softmaxRow E (M.filled query key (some m) b h i) j := by
      intro j
      show softmaxRow E (M.filled query key (some m) b h i) j * c (b, h, i, j) = _
      rw [h1, mul_one]
    rw [Finset.sum_congr rfl fun j _ => hshow j]
    refine restricted_softmaxRow_sum E hEnn hE0 hEuf _ _ ?_ ?_
    · intro j hpj
      simp [MultiHeadAttention.filled, hpj]
    · obtain ⟨j0, hj0, hs⟩ := hex
      refine ⟨j0, hj0, ?_⟩
      simpa [MultiHeadAttention.filled, hj0] using hs
  · intro Hkv G dqk B Tq Tk M E query key value m c hEnn hE0 hEuf hc b h i hex
    have h1 := dropoutDraw_zero_eq_one hc
    have hshow : ∀ j, (M.forward E query key value (some m) c).2 b h i j =
        softmaxRow E (M.filled query key (some m) b h i) j := by
      intro j
      show softmaxRow E (M.filled query key (some m) b h i) j * c (b, h, i, j) = _
      rw [h1, mul_one]
    rw [Finset.sum_congr rfl fun j _ => hshow j]
    refine restricted_softmaxRow_sum E hEnn hE0 hEuf _ _ ?_ ?_
    · intro j hpj
      simp [GroupedQueryAttention.filled, hpj]
    · obtain ⟨j0, hj0, hs⟩ := hex
      refine ⟨j0, hj0, ?_⟩
      simpa [GroupedQueryAttention.filled, hj0] using hs
  · intro De B T M E x c hEnn hE0 hEuf hc b i hex
    have h1 := dropoutDraw_zero_eq_one hc
    have hshow : ∀ j, (M.forward E x c).2 b i j =
        softmaxRow E (M.filled x b i) j := by
      intro j
      show softmaxRow E (M.filled x b i) j * c (b, i, j) = _
      rw [h1, mul_one]
    rw [Finset.sum_congr rfl fun j _ => hshow j]
    refine restricted_softmaxRow_sum E hEnn hE0 hEuf _ _ ?_ ?_
    · intro j hpj
      simp [CausalSelfAttention.filled, hpj]
    · obtain ⟨j0, hj0, hs⟩ := hex
      refine ⟨j0, hj0, ?_⟩
      simpa [CausalSelfAttention.filled, hj0] using hs
  · intro H dk B Tq Tk M E query key value c hEnn hE0 hc hTk b h i
    have h1 := dropoutDraw_zero_eq_one hc
    have hshow : ∀ j, (M.forward E query key value none c).2 b h i j =
        softmaxRow E (M.filled query key none b h i) j := by
      intro j
      show softmaxRow E (M.filled query key none b h i) j * c (b, h, i, j) = _
      rw [h1, mul_one]
    rw [Finset.sum_congr rfl fun j _ => hshow j]
    exact softmaxRow_sum_eq_one E hEnn hE0 hTk _
  · intro Hkv G dqk B Tq Tk M E query key value c hEnn hE0 hc hTk b h i
    have h1 := dropoutDraw_zero_eq_one hc
    have hshow : ∀ j, (M.forward E query key value none c).2 b h i j =
        softmaxRow E (M.filled query key none b h i) j := by
      intro j
      show softmaxRow E (M.filled query key none b h i) j * c (b, h, i, j) = _
      rw [h1, mul_one]
    rw [Finset.sum_congr rfl fun j _ => hshow j]
    exact softmaxRow_sum_eq_one E hEnn hE0 hTk _

/-- Concrete evaluation of the amended C6: a `1×1×1×1` multi-head module
under an all-true mask has unmasked-restricted row sum exactly `1`. -/
theorem c6_witness :
    (∀ y : ℚ, 0 ≤ Ewit y) ∧ 0 < Ewit 0 ∧
    (∀ y : ℚ, y ≤ -(10 ^ 8) → Ewit y = 0) ∧
    DropoutDraw 0 (fun _ : Fin 1 × Fin 1 × Fin 1 × Fin 1 => (1 : ℚ)) ∧
    (∃ j : Fin 1,
      (fun _ _ _ _ => true : Fin 1 → Fin 1 → Fin 1 → Fin 1 → Bool) 0 0 0 j =
        true ∧
      -(9 * 10 ^ 8 : ℚ) ≤ (mhaZero 1 1 0).scores
        (fun _ _ _ => 0 : Fin 1 → Fin 1 → Fin (1 * 1) → ℚ)
        (fun _ _ _ => 0 : Fin 1 → Fin 1 → Fin (1 * 1) → ℚ) 0 0 0 j) ∧
    ∑ j ∈ Finset.univ.filter
        (fun j : Fin 1 =>
          (fun _ _ _ _ => true : Fin 1 → Fin 1 → Fin 1 → Fin 1 → Bool)
            0 0 0 j = true),
      ((mhaZero 1 1 0).forward Ewit
        (fun _ _ _ => 0 : Fin 1 → Fin 1 → Fin (1 * 1) → ℚ)
        (fun _ _ _ => 0 : Fin 1 → Fin 1 → Fin (1 * 1) → ℚ)
        (fun _ _ _ => 0 : Fin 1 → Fin 1 → Fin (1 * 1) → ℚ)
        (some (fun _ _ _ _ => true)) (fun _ => 1)).2 0 0 0 j = 1 := by
  have hEnn : ∀ y : ℚ, 0 ≤ Ewit y := by
    intro y
    unfold Ewit
    split <;> norm_num
  have hE0 : 0 < Ewit 0 := by norm_num [Ewit]
  have hEuf : ∀ y : ℚ, y ≤ -(10 ^ 8) → Ewit y = 0 := by
    intro y hy
    unfold Ewit
    rw [if_pos hy]
  have hc : DropoutDraw 0 (fun _ : Fin 1 × Fin 1 × Fin 1 × Fin 1 => (1 : ℚ)) :=
    fun _ => Or.inl (by norm_num)
  have hex : ∃ j : Fin 1,
      (fun _ _ _ _ => true : Fin 1 → Fin 1 → Fin 1 → Fin 1 → Bool) 0 0 0 j =
        true ∧
      -(9 * 10 ^ 8 : ℚ) ≤ (mhaZero 1 1 0).scores
        (fun _ _ _ => 0 : Fin 1 → Fin 1 → Fin (1 * 1) → ℚ)
        (fun _ _ _ => 0 : Fin 1 → Fin 1 → Fin (1 * 1) → ℚ) 0 0 0 j := by
    refine ⟨0, rfl, ?_⟩
    simp only [MultiHeadAttention.scores, MultiHeadAttention.Qh,
      MultiHeadAttention.Kh, split_heads, Linear.apply, mhaZero, zeroLinear,
      Fin.sum_univ_one]
    norm_num
  exact ⟨hEnn, hE0, hEuf, hc, hex,
    c6_unmasked_row_sums_to_one.1 1 1 1 1 1 (mhaZero 1 1 0) Ewit _ _ _ _ _
      hEnn hE0 hEuf hc 0 0 0 hex⟩

/-- C7 fails in its final conjunct as stated: with the constructor-default
dropout probability `1/10` in training mode, a legal keep-everything draw
scales the returned weights by `10/9`, so the returned matrix is no longer
row-normalized (its single row sums to `10/9`). -/
theorem c7_counterexample :
    DropoutDraw (1 / 10 : ℚ) (fun _ : Fin 1 × Fin 1 × Fin 1 => (10 : ℚ) / 9) ∧
    (∑ j, ((csaZero 1 (1 / 10)).forward Ewit
        (fun _ _ _ => 0 : Fin 1 → Fin 1 → Fin 1 → ℚ)
        (fun _ => (10 : ℚ) / 9)).2 0 0 j) ≠ 1 := by
  constructor
  · intro i
    left
    norm_num
  · have hval : (∑ j, ((csaZero 1 (1 / 10)).forward Ewit
        (fun _ _ _ => 0 : Fin 1 → Fin 1 → Fin 1 → ℚ)
        (fun _ => (10 : ℚ) / 9)).2 0 0 j) = 10 / 9 := by
      simp only [Fin.sum_univ_one, CausalSelfAttention.forward,
        CausalSelfAttention.attn, CausalSelfAttention.filled,
        CausalSelfAttention.scores, causal_mask, csaZero, zeroLinear,
        Linear.apply, softmaxRow, rowMax, maskConst, Ewit, Fin.sum_univ_one,
        List.ofFn_zero, List.foldr_nil]
      norm_num
    rw [hval]
    norm_num

/-- C7 (amended): the internally built causal mask allows `(i, j)` iff
`j ≤ i`, so the diagonal of every query row is always allowed and every
softmax row has an unmasked entry; the returned weight matrix is a finite,
normalized distribution (entrywise nonnegative, rows summing to `1`)
whenever dropout is inactive (probability `0`); with training-mode dropout
the returned rows are rescaled, see the counterexample. -/
theorem c7_causal_mask_sound :
    (∀ (T : ℕ) (i j : Fin T), causal_mask T i j = true ↔ j.1 ≤ i.1) ∧
    (∀ (T : ℕ) (i : Fin T), causal_mask T i i = true) ∧
    (∀ (De B T : ℕ) (M : CausalSelfAttention De) (E : ℚ → ℚ)
      (x : Fin B → Fin T → Fin De → ℚ) (c : Fin B × Fin T × Fin T → ℚ),
      (∀ y, 0 ≤ E y) → 0 < E 0 → DropoutDraw 0 c →
      ∀ (b : Fin B) (i : Fin T),
        (∀ j, 0 ≤ (M.forward E x c).2 b i j) ∧
        ∑ j, (M.forward E x c).2 b i j = 1) := by
  refine ⟨?_, ?_, ?_⟩
  · intro T i j
    simp [causal_mask]
  · intro T i
    simp [causal_mask]
  · intro De B T M E x c hEnn hE0 hc b i
    have h1 := dropoutDraw_zero_eq_one hc
    have hshow : ∀ j, (M.forward E x c).2 b i j =
        softmaxRow E (M.filled x b i) j := by
      intro j
      show softmaxRow E (M.filled x b i) j * c (b, i, j) = _
      rw [h1, mul_one]
    constructor
    · intro j
      rw [hshow j]
      exact softmaxRow_nonneg E hEnn _ j
    · rw [Finset.sum_congr rfl fun j _ => hshow j]
      exact softmaxRow_sum_eq_one E hEnn hE0 i.pos _

/-- Concrete evaluation of the amended C7: with dropout inactive, an
all-zero causal module returns a nonnegative, row-normalized matrix. -/
theorem c7_witness :
    (∀ y : ℚ, 0 ≤ Ewit y) ∧ 0 < Ewit 0 ∧
    DropoutDraw 0 (fun _ : Fin 1 × Fin 1 × Fin 1 => (1 : ℚ)) ∧
    (∀ j : Fin 1, 0 ≤ ((csaZero 1 0).forward Ewit
        (fun _ _ _ => 0 : Fin 1 → Fin 1 → Fin 1 → ℚ) (fun _ => 1)).2 0 0 j) ∧
    ∑ j, ((csaZero 1 0).forward Ewit
        (fun _ _ _ => 0 : Fin 1 → Fin 1 → Fin 1 → ℚ) (fun _ => 1)).2 0 0 j =
      1 := by
  have hEnn : ∀ y : ℚ, 0 ≤ Ewit y := by
    intro y
    unfold Ewit
    split <;> norm_num
  have hE0 : 0 < Ewit 0 := by norm_num [Ewit]
  have hc : DropoutDraw 0 (fun _ : Fin 1 × Fin 1 × Fin 1 => (1 : ℚ)) :=
    fun _ => Or.inl (by norm_num)
  have hmain := c7_causal_mask_sound.2.2 1 1 1 (csaZero 1 0) Ewit
    (fun _ _ _ => 0 : Fin 1 → Fin 1 → Fin 1 → ℚ) (fun _ => 1) hEnn hE0 hc 0 0
  exact ⟨hEnn, hE0, hc, hmain.1, hmain.2⟩

/-- C8 fails as stated: with the constructor-default dropout probability
`1/10` in training mode, two forward calls on the same module with
identical inputs but different legal dropout draws (keep-everything versus
drop-everything) return different attention weights. -/
theorem c8_counterexample :
    DropoutDraw (1 / 10 : ℚ) (fun _ : Fin 1 × Fin 1 × Fin 1 => (10 : ℚ) / 9) ∧
    DropoutDraw (1 / 10 : ℚ) (fun _ : Fin 1 × Fin 1 × Fin 1 => (0 : ℚ)) ∧
    ((csaZero 1 (1 / 10)).forward Ewit
        (fun _ _ _ => 0 : Fin 1 → Fin 1 → Fin 1 → ℚ)
        (fun _ => (10 : ℚ) / 9)).2 0 0 0 ≠
      ((csaZero 1 (1 / 10)).forward Ewit
        (fun _ _ _ => 0 : Fin 1 → Fin 1 → Fin 1 → ℚ)
        (fun _ => (0 : ℚ))).2 0 0 0 := by
  refine ⟨fun _ => Or.inl (by norm_num),
    fun _ => Or.inr ⟨rfl, by norm_num⟩, ?_⟩
  have ha : ((csaZero 1 (1 / 10)).forward Ewit
      (fun _ _ _ => 0 : Fin 1 → Fin 1 → Fin 1 → ℚ)
      (fun _ => (10 : ℚ) / 9)).2 0 0 0 = 10 / 9 := by
    simp only [CausalSelfAttention.forward, CausalSelfAttention.attn,
      CausalSelfAttention.filled, CausalSelfAttention.scores, causal_mask,
      csaZero, zeroLinear, Linear.apply, softmaxRow, rowMax, maskConst, Ewit,
      Fin.sum_univ_one, List.ofFn_zero, List.foldr_nil]
    norm_num
  have hb : ((csaZero 1 (1 / 10)).forward Ewit
      (fun _ _ _ => 0 : Fin 1 → Fin 1 → Fin 1 → ℚ)
      (fun _ => (0 : ℚ))).2 0 0 0 = 0 := by
    simp only [CausalSelfAttention.forward, CausalSelfAttention.attn,
      mul_zero]
  rw [ha, hb]
  norm_num

/-- C8 (amended): with dropout inactive (probability `0`, where every legal
draw keeps every entry), each module's forward pass is a pure function of
its inputs and fixed projection weights: any two legal draws produce
identical outputs (context and attention weights), for all inputs and
modules — stated for `MultiHeadAttention`, `GroupedQueryAttention` and
`CausalSelfAttention`. -/
theorem c8_forward_deterministic :
    (∀ (H dk B Tq Tk : ℕ) (M : MultiHeadAttention H dk) (E : ℚ → ℚ)
      (query : Fin B → Fin Tq → Fin (H * dk) → ℚ)
      (key value : Fin B → Fin Tk → Fin (H * dk) → ℚ)
      (mask : Option (Fin B → Fin H → Fin Tq → Fin Tk → Bool))
      (c c2 : Fin B × Fin H × Fin Tq × Fin Tk → ℚ),
      DropoutDraw 0 c → DropoutDraw 0 c2 →
      M.forward E query key value mask c = M.forward E query key value mask c2) ∧
    (∀ (Hkv G dqk B Tq Tk : ℕ) (M : GroupedQueryAttention Hkv G dqk)
      (E : ℚ → ℚ)
      (query : Fin B → Fin Tq → Fin (Hkv * G * dqk) → ℚ)
      (key value : Fin B → Fin Tk → Fin (Hkv * G * dqk) → ℚ)
      (mask : Option (Fin B → Fin (Hkv * G) → Fin Tq → Fin Tk → Bool))
      (c c2 : Fin B × Fin (Hkv * G) × Fin Tq × Fin Tk → ℚ),
      DropoutDraw 0 c → DropoutDraw 0 c2 →
      M.forward E query key value mask c = M.forward E query key value mask c2) ∧
    (∀ (De B T : ℕ) (M : CausalSelfAttention De) (E : ℚ → ℚ)
      (x : Fin B → Fin T → Fin De → ℚ) (c c2 : Fin B × Fin T × Fin T → ℚ),
      DropoutDraw 0 c → DropoutDraw 0 c2 →
      M.forward E x c = M.forward E x c2) := by
  refine ⟨?_, ?_, ?_⟩
  · intro H dk B Tq Tk M E query key value mask c c2 hc hc2
    have hcc : c = c2 := funext fun i => by
      rw [dropoutDraw_zero_eq_one hc i, dropoutDraw_zero_eq_one hc2 i]
    rw [hcc]
  · intro Hkv G dqk B Tq Tk M E query key value mask c c2 hc hc2
    have hcc : c = c2 := funext fun i => by
      rw [dropoutDraw_zero_eq_one hc i, dropoutDraw_zero_eq_one hc2 i]
    rw [hcc]
  · intro De B T M E x c c2 hc hc2
    have hcc : c = c2 := funext fun i => by
      rw [dropoutDraw_zero_eq_one hc i, dropoutDraw_zero_eq_one hc2 i]
    rw [hcc]

/-- Concrete evaluation of the amended C8: two syntactically different
legal draws for probability `0` give identical causal forward outputs. -/
theorem c8_witness :
    DropoutDraw 0 (fun _ : Fin 1 × Fin 1 × Fin 1 => (1 : ℚ)) ∧
    DropoutDraw 0 (fun _ : Fin 1 × Fin 1 × Fin 1 => (2 : ℚ) / 2) ∧
    (csaZero 1 0).forward Ewit
        (fun _ _ _ => 0 : Fin 1 → Fin 1 → Fin 1 → ℚ) (fun _ => 1) =
      (csaZero 1 0).forward Ewit
        (fun _ _ _ => 0 : Fin 1 → Fin 1 → Fin 1 → ℚ)
        (fun _ => (2 : ℚ) / 2) := by
  have hc : DropoutDraw 0 (fun _ : Fin 1 × Fin 1 × Fin 1 => (1 : ℚ)) :=
    fun _ => Or.inl (by norm_num)
  have hc2 : DropoutDraw 0 (fun _ : Fin 1 × Fin 1 × Fin 1 => (2 : ℚ) / 2) :=
    fun _ => Or.inl (by norm_num)
  exact ⟨hc, hc2,
    c8_forward_deterministic.2.2 1 1 1 (csaZero 1 0) Ewit
      (fun _ _ _ => 0 : Fin 1 → Fin 1 → Fin 1 → ℚ) _ _ hc hc2⟩

/-- Inferring the `-1` extent of a `view` succeeds on an exact multiple. -/
theorem inferDim_eq (k t : ℕ) (hk : k ≠ 0) : inferDim k (t * k) = some t := by
  unfold inferDim
  rw [if_pos ⟨hk, ⟨t, Nat.mul_comm t k⟩⟩]
  rw [Nat.mul_div_cancel t (Nat.pos_of_ne_zero hk)]

/-- Shape of `view(B, -1, H, dk)` on a `(B, T, H*dk)` input. -/
theorem viewSplit_eq (Bq Hh dd T : ℕ) (h : Bq * Hh * dd ≠ 0) :
    viewSplit Bq Hh dd [Bq, T, Hh * dd] = some [Bq, T, Hh, dd] := by
  unfold viewSplit
  have hprod : List.prod [Bq, T, Hh * dd] = T * (Bq * Hh * dd) := by
    simp [List.prod_cons, List.prod_nil]
    ring
  rw [hprod, inferDim_eq _ _ h]
  rfl

/-- Shape of `view(B, -1, d_model)` on a `(B, T, H, dk)` input. -/
theorem viewMerge_eq (Bq T Hh dd : ℕ) (h : Bq * (Hh * dd) ≠ 0) :
    viewMerge Bq (Hh * dd) [Bq, T, Hh, dd] = some [Bq, T, Hh * dd] := by
  unfold viewMerge
  have hprod : List.prod [Bq, T, Hh, dd] = T * (Bq * (Hh * dd)) := by
    simp [List.prod_cons, List.prod_nil]
    ring
  rw [hprod, inferDim_eq _ _ h]
  rfl

/-- Shape of one projection-and-split stage of forward. -/
theorem projSplitShape_eq (Hh dd Bq T : ℕ) (hB : Bq ≠ 0) (hH : Hh ≠ 0)
    (hd : dd ≠ 0) :
    projSplitShape (Hh * dd) Hh Bq [Bq, T, Hh * dd] = some [Bq, Hh, T, dd] := by
  unfold projSplitShape
  have hlin : linear3Shape (Hh * dd) (Hh * dd) [Bq, T, Hh * dd] =
      some [Bq, T, Hh * dd] := by
    simp [linear3Shape]
  rw [hlin]
  simp only [Option.bind]
  rw [Nat.mul_div_cancel_left dd (Nat.pos_of_ne_zero hH)]
  rw [viewSplit_eq Bq Hh dd T (by
    exact Nat.mul_ne_zero (Nat.mul_ne_zero hB hH) hd)]
  rfl

/-- Shape of the score stage `Q @ K.transpose(-2, -1)`. -/
theorem scoreShape_eq (Bq Hh Tq Tk dd : ℕ) :
    scoreShape [Bq, Hh, Tq, dd] [Bq, Hh, Tk, dd] = some [Bq, Hh, Tq, Tk] := by
  simp [scoreShape, transposeLast2Shape, matmul4Shape, Option.bind]

/-- Shape of the output stage `attn @ V` → permute → merge → projection. -/
theorem outputShape_eq (Bq Hh Tq Tk dd : ℕ) (h : Bq * (Hh * dd) ≠ 0) :
    outputShape Bq (Hh * dd) [Bq, Hh, Tq, Tk] [Bq, Hh, Tk, dd] =
      some [Bq, Tq, Hh * dd] := by
  unfold outputShape
  have hmm : matmul4Shape [Bq, Hh, Tq, Tk] [Bq, Hh, Tk, dd] =
      some [Bq, Hh, Tq, dd] := by
    simp [matmul4Shape]
  rw [hmm]
  simp only [Option.bind, permute0213Shape]
  rw [viewMerge_eq Bq Tq Hh dd h]
  simp [linear3Shape, Option.bind]

/-- C3: for every `MultiHeadAttention` configuration with `H` evenly
dividing `D` and every forward call with query shape `(B, Tq, D)` and
key/value shape `(B, Tk, D)`, the output has the query's shape
`(B, Tq, D)` and the attention weights have shape `(B, H, Tq, Tk)`. -/
theorem c3_mha_shapes (B Tq Tk D H : ℕ) (hdvd : H ∣ D) (hD : 0 < D)
    (hB : 0 < B) :
    mhaForwardShape D H [B, Tq, D] [B, Tk, D] [B, Tk, D] =
      some ([B, Tq, D], [B, H, Tq, Tk]) := by
  obtain ⟨dk, rfl⟩ := hdvd
  have hH : H ≠ 0 := by
    intro h
    subst h
    omega
  have hdk : dk ≠ 0 := by
    intro h
    subst h
    omega
  have hBne : B ≠ 0 := Nat.pos_iff_ne_zero.mp hB
  unfold mhaForwardShape
  have hhead : ([B, Tq, H * dk] : List ℕ).head? = some B := rfl
  rw [hhead]
  simp only [Option.bind]
  rw [projSplitShape_eq H dk B Tq hBne hH hdk]
  simp only [Option.bind]
  rw [projSplitShape_eq H dk B Tk hBne hH hdk]
  simp only [Option.bind]
  rw [scoreShape_eq]
  simp only [Option.bind]
  rw [outputShape_eq B H Tq Tk dk (by
    exact Nat.mul_ne_zero hBne (Nat.mul_ne_zero hH hdk))]

/-- Concrete evaluation of C3 at the notebook's test configuration:
`D = 64`, `H = 8`, batch `2`, sequence length `10` gives output shape
`(2, 10, 64)` and weight shape `(2, 8, 10, 10)`. -/
theorem c3_witness :
    (8 : ℕ) ∣ 64 ∧ (0 : ℕ) < 64 ∧ (0 : ℕ) < 2 ∧
    mhaForwardShape 64 8 [2, 10, 64] [2, 10, 64] [2, 10, 64] =
      some ([2, 10, 64], [2, 8, 10, 10]) :=
  ⟨by decide, by decide, by decide,
   c3_mha_shapes 2 10 10 64 8 (by decide) (by decide) (by decide)⟩

end InsideLLM
